import Mathlib

/-!
# Formal model of the nandu_brain query engine

Shallow embedding, in Lean 4, of the query-understanding and retrieval core of
`backend/nandu_brain_backup.py`: input validation, spelling-correction guards,
the classification cache, the rate limiter, audit logging, catalogue search
scoring, and duplicate merging.  Python strings are modelled as Lean `String`
(a wrapper around `List Char`); the model covers the ASCII behaviour of
`str.lower`, `str.strip`, `str.isalpha` (all queries pass through a sanitizer
that strips non-ASCII characters).  Wall-clock times (`time.time()`) are
modelled as explicit integer/natural parameters threaded through the state.
-/

namespace Nandu

/-! ## Python string primitives -/

/-- `str.lower` (ASCII range, as produced by the sanitizer). -/
def pyLower (s : String) : String := ⟨s.data.map Char.toLower⟩

/-- Whitespace test used by `str.strip` / `str.split()`. -/
def pyIsSpace (c : Char) : Bool := c.isWhitespace

/-- `str.strip()` on the underlying character list. -/
def pyStripList (l : List Char) : List Char :=
  ((l.dropWhile pyIsSpace).reverse.dropWhile pyIsSpace).reverse

/-- `str.strip()`. -/
def pyStrip (s : String) : String := ⟨pyStripList s.data⟩

/-- Split a character list at separators satisfying `p`, keeping the
(possibly empty) chunks.  Helper for `pyWordsBy`. -/
def chunksBy (p : Char → Bool) (l : List Char) : List (List Char) :=
  l.foldr
    (fun c acc =>
      match acc with
      | [] => if p c then [[], []] else [[c]]
      | w :: ws => if p c then [] :: w :: ws else (c :: w) :: ws)
    [[]]

/-- Maximal runs of characters *not* satisfying `p` (empty runs dropped):
the semantics of `str.split()` (with `p` = whitespace) and of
`re.findall` over a character class (with `p` = not-in-class). -/
def pyWordsBy (p : Char → Bool) (l : List Char) : List (List Char) :=
  (chunksBy p l).filter (fun w => !w.isEmpty)

/-- `str.split()` — split on whitespace runs, no empty tokens. -/
def pySplitWs (s : String) : List String :=
  (pyWordsBy pyIsSpace s.data).map (fun w => ⟨w⟩)

/-- Substring test: Python `needle in hay`. -/
def pyContains (hay needle : String) : Bool :=
  hay.data.tails.any (fun t => needle.data.isPrefixOf t)

/-- The vowels recognised by the gibberish heuristic (`'aeiouAEIOU'`). -/
def pyVowels : List Char := ['a', 'e', 'i', 'o', 'u', 'A', 'E', 'I', 'O', 'U']

/-- Number of characters of `q` that Python's `c.isalpha()` accepts
(ASCII model). -/
def letterCount (q : String) : Nat := q.data.countP (fun c => c.isAlpha)

/-- Number of vowels of `q`. -/
def vowelCount (q : String) : Nat := q.data.countP (fun c => pyVowels.contains c)

/-- Python `hay.count(pat)`: number of non-overlapping occurrences of a
non-empty `pat`, scanning from the left (the callers only pass 2-character
patterns, so the `pat = []` case is unreachable). -/
def pyCount (pat : List Char) (l : List Char) : Nat :=
  match pat, l with
  | [], _ => 0
  | _, [] => 0
  | p :: ps, c :: rest =>
    if (p :: ps).isPrefixOf (c :: rest) then
      1 + pyCount (p :: ps) (rest.drop ps.length)
    else
      pyCount (p :: ps) rest
termination_by l.length
decreasing_by
  · simp only [List.length_drop, List.length_cons]
    omega
  · simp

/-! ## Input validation (`is_valid_query`, lines 394–427) -/

/-- The length-error message of `is_valid_query`. -/
def lengthErrorMsg : String :=
  "⚠️ Please enter a valid query with at least 2 characters."

/-- The gibberish-error message of `is_valid_query`. -/
def gibberishMsg : String :=
  "⚠️ I couldn\x27t understand your query. Please enter a valid question about books, authors, or library services."

/-- The 2-character windows `query[i:i+2]` for `i in range(len(query) - 3)`. -/
def twoSlices (l : List Char) : List (List Char) :=
  (List.range (l.length - 3)).map (fun i => (l.drop i).take 2)

/-- `is_valid_query(query)`.  The float test
`vowel_count < letter_count * 0.15` is modelled exactly as
`20 * vowel_count < 3 * letter_count`; for every list length that fits in an
IEEE double's integer range the two comparisons coincide (the rounding error
of `n * 0.15` is below half an ulp of the nearest integer).  The float test
`query.count(pattern) > len(query) / 4` likewise coincides with
`4 * count > len`. -/
def is_valid_query (q : String) : Bool × String :=
  if q = "" ∨ (pyStrip q).length < 2 then
    (false, lengthErrorMsg)
  else if 5 < letterCount q ∧ 20 * vowelCount q < 3 * letterCount q then
    (false, gibberishMsg)
  else if 4 < q.length ∧
      (twoSlices q.data).any (fun pat => q.data.length < 4 * pyCount pat q.data) then
    (false, gibberishMsg)
  else
    (true, "")

end Nandu

namespace Nandu

/-! ## Helper lemmas about the string primitives -/

theorem alpha_not_space (c : Char) (h : pyIsSpace c = true) : c.isAlpha = false := by
  simp only [pyIsSpace, Char.isWhitespace, Bool.or_eq_true, decide_eq_true_eq] at h
  rcases h with ((h | h) | h) | h <;> subst h <;> decide

theorem countP_alpha_dropWhile_space (l : List Char) :
    (l.dropWhile pyIsSpace).countP (fun c => c.isAlpha) =
      l.countP (fun c => c.isAlpha) := by
  conv_rhs => rw [← List.takeWhile_append_dropWhile (p := pyIsSpace) (l := l)]
  rw [List.countP_append]
  have h0 : (l.takeWhile pyIsSpace).countP (fun c => c.isAlpha) = 0 := by
    apply List.countP_eq_zero.mpr
    intro c hc
    simp [alpha_not_space c (List.mem_takeWhile_imp hc)]
  omega

theorem countP_alpha_pyStripList (l : List Char) :
    (pyStripList l).countP (fun c => c.isAlpha) = l.countP (fun c => c.isAlpha) := by
  unfold pyStripList
  rw [(List.reverse_perm _).countP_eq,
      countP_alpha_dropWhile_space,
      (List.reverse_perm _).countP_eq,
      countP_alpha_dropWhile_space]

theorem letterCount_le_strip_length (q : String) :
    letterCount q ≤ (pyStrip q).length := by
  have h1 : (pyStrip q).length = (pyStripList q.data).length := rfl
  have h2 := List.countP_le_length (p := fun c => c.isAlpha) (l := pyStripList q.data)
  have h3 := countP_alpha_pyStripList q.data
  unfold letterCount
  omega

/-! ## Claim C7 -/

/-- **C7.**  `is_valid_query` rejects every query whose stripped length is
under 2 with the length-error message, and rejects every query with more
than 5 letters and a vowel ratio below 15% with the gibberish message. -/
theorem C7_is_valid_query_rejections (q : String) :
    ((q = "" ∨ (pyStrip q).length < 2) → is_valid_query q = (false, lengthErrorMsg)) ∧
    (5 < letterCount q → 20 * vowelCount q < 3 * letterCount q →
      is_valid_query q = (false, gibberishMsg)) := by
  constructor
  · intro h
    unfold is_valid_query
    rw [if_pos h]
  · intro h5 hv
    have hlen : ¬(q = "" ∨ (pyStrip q).length < 2) := by
      rintro (rfl | hshort)
      · simp [letterCount] at h5
      · have := letterCount_le_strip_length q
        omega
    unfold is_valid_query
    rw [if_neg hlen, if_pos ⟨h5, hv⟩]

/-- Witness for C7 at concrete inputs: `"x"` fails the length check and
`"bcdfgh"` (6 letters, 0 vowels) fails the gibberish check. -/
theorem C7_witness :
    is_valid_query "x" = (false, lengthErrorMsg) ∧
    is_valid_query "bcdfgh" = (false, gibberishMsg) := by
  constructor
  · exact (C7_is_valid_query_rejections "x").1 (by right; decide)
  · exact (C7_is_valid_query_rejections "bcdfgh").2 (by decide) (by decide)

end Nandu

namespace Nandu

/-! ## Association-list model of Python `dict` / `defaultdict`

Python dictionaries preserve insertion order; updating an existing key keeps
its position, assigning a fresh key appends it.  We model them as ordered
association lists. -/

/-- `d.get(k, default)` / `defaultdict` read. -/
def getD {α : Type} (st : List (String × α)) (k : String) (d : α) : α :=
  match st with
  | [] => d
  | e :: r => if e.1 = k then e.2 else getD r k d

/-- `d[k] = v`: replace in place if the key exists, else append. -/
def setFirst {α : Type} (st : List (String × α)) (k : String) (v : α) :
    List (String × α) :=
  match st with
  | [] => [(k, v)]
  | e :: r => if e.1 = k then (k, v) :: r else e :: setFirst r k v

/-- `k in d`. -/
def hasKey {α : Type} (st : List (String × α)) (k : String) : Bool :=
  st.any (fun e => e.1 = k)

theorem getD_setFirst {α : Type} (st : List (String × α)) (k : String) (v d : α) :
    getD (setFirst st k v) k d = v := by
  induction st with
  | nil => simp [setFirst, getD]
  | cons e r ih => by_cases h : e.1 = k <;> simp [setFirst, getD, h, ih]

/-! ## Rate limiter (`rate_limit`, lines 178–217)

`_rate_limiter` is a `defaultdict(list)` mapping a client id to the
timestamps of its admitted requests.  The decorator prunes entries older
than the window, stores the pruned list back, denies if the pruned count
has reached `max_requests`, and otherwise appends the current time and
calls the wrapped function.  Timestamps (`time.time()` floats) are
modelled as integers. -/

/-- Per-client request-timestamp windows (`_rate_limiter`). -/
abbrev RLState := List (String × List Int)

/-- One admission decision of the `rate_limit` decorator: returns whether
the request is admitted together with the updated limiter state. -/
def rate_limit_step (st : RLState) (client : String) (now : Int)
    (maxRequests : Nat) (window : Int) : Bool × RLState :=
  let pruned := (getD st client []).filter (fun ts => now - ts < window)
  let st1 := setFirst st client pruned
  if maxRequests ≤ pruned.length then
    (false, st1)
  else
    (true, setFirst st1 client (pruned ++ [now]))

/-! ## Claim C6 -/

/-- **C6.**  For a fixed client, once `max_requests` timestamps sit inside
the window, the next request is denied; the denial leaves exactly the
pruned timestamp list in the state (entries older than the window are
pruned before the admission check); and once the whole window has elapsed
the same client is admitted again. -/
theorem C6_rate_limit_window (st : RLState) (client : String) (now later : Int)
    (maxRequests : Nat) (window : Int)
    (hmax : 1 ≤ maxRequests)
    (hfull : maxRequests ≤
      ((getD st client []).filter (fun ts => now - ts < window)).length)
    (hexp : ∀ ts ∈ getD st client [], window ≤ later - ts) :
    (rate_limit_step st client now maxRequests window).1 = false ∧
    getD (rate_limit_step st client now maxRequests window).2 client [] =
      (getD st client []).filter (fun ts => now - ts < window) ∧
    (rate_limit_step (rate_limit_step st client now maxRequests window).2
      client later maxRequests window).1 = true := by
  have hstep : rate_limit_step st client now maxRequests window =
      (false, setFirst st client
        ((getD st client []).filter (fun ts => now - ts < window))) := by
    unfold rate_limit_step
    simp only [if_pos hfull]
  refine ⟨by rw [hstep], ?_, ?_⟩
  · rw [hstep]
    exact getD_setFirst ..
  · rw [hstep]
    unfold rate_limit_step
    have hget : getD (setFirst st client
        ((getD st client []).filter (fun ts => now - ts < window))) client [] =
        (getD st client []).filter (fun ts => now - ts < window) :=
      getD_setFirst ..
    rw [hget]
    have hnil : ((getD st client []).filter (fun ts => now - ts < window)).filter
        (fun ts => later - ts < window) = [] := by
      apply List.filter_eq_nil_iff.mpr
      intro ts hts
      have hmem : ts ∈ getD st client [] := (List.mem_filter.mp hts).1
      have := hexp ts hmem
      simp only [decide_eq_true_eq]
      omega
    rw [hnil]
    simp only [List.length_nil, if_neg (by omega : ¬ maxRequests ≤ 0)]

/-- Witness for C6: client `"c"` with timestamps 10 and 20, window 60 and
`max_requests = 2`, is denied at time 30 and admitted again at time 100. -/
theorem C6_witness :
    (rate_limit_step [("c", [10, 20])] "c" 30 2 60).1 = false ∧
    (rate_limit_step (rate_limit_step [("c", [10, 20])] "c" 30 2 60).2
      "c" 100 2 60).1 = true := by
  have h := C6_rate_limit_window [("c", [10, 20])] "c" 30 100 2 60
    (by decide) (by decide) (by decide)
  exact ⟨h.1, h.2.2⟩

end Nandu

namespace Nandu

/-! ## Classification cache (`cache_classification`, lines 142–171)

`classification_cache` maps `query.lower().strip()` to
`(classification, timestamp)`.  After every insertion, if the size exceeds
500 entries, the 100 entries with the smallest timestamps are deleted
(`sorted(cache.items(), key=timestamp)[:100]`).  `sorted` is a stable sort;
`List.insertionSort` with a `≤`-shaped relation is stable as well, and two
stable sorts under the same key agree. -/

/-- Cache entries: `(normalized key, (classification, timestamp))`. -/
abbrev CCache := List (String × String × Nat)

/-- `query.lower().strip()`. -/
def cacheKey (q : String) : String := pyStrip (pyLower q)

/-- `sorted(cache.items(), key=lambda x: x[1][1])`. -/
def sortByTimestamp (c : CCache) : CCache :=
  List.insertionSort (fun e f => e.2.2 ≤ f.2.2) c

/-- `del cache[k]` (keys are unique, so erasing the first match is exact). -/
def delKey (c : CCache) (k : String) : CCache :=
  c.eraseP (fun e => e.1 == k)

/-- `cache_classification(query, classification)` at time `now`. -/
def cache_classification (c : CCache) (q classification : String) (now : Nat) :
    CCache :=
  let c1 := setFirst c (cacheKey q) (classification, now)
  if 500 < c1.length then
    ((sortByTimestamp c1).take 100).foldl (fun acc e => delKey acc e.1) c1
  else
    c1

/-- Insert the given `(query, classification)` pairs in order, at
consecutive timestamps `t0, t0+1, …`. -/
def insertManyFrom (c : CCache) (items : List (String × String)) (t0 : Nat) :
    CCache :=
  match items with
  | [] => c
  | p :: rest => insertManyFrom (cache_classification c p.1 p.2 t0) rest (t0 + 1)

/-- The cache entries that the inserts of `insertManyFrom` produce, before
any eviction. -/
def entriesOf (items : List (String × String)) (t0 : Nat) : CCache :=
  match items with
  | [] => []
  | p :: rest => (cacheKey p.1, (p.2, t0)) :: entriesOf rest (t0 + 1)

theorem setFirst_of_not_hasKey {α : Type} (st : List (String × α)) (k : String)
    (v : α) (h : hasKey st k = false) : setFirst st k v = st ++ [(k, v)] := by
  induction st with
  | nil => rfl
  | cons e r ih =>
    simp only [hasKey, List.any_cons, Bool.or_eq_false_iff, decide_eq_false_iff_not] at h
    simp only [setFirst, if_neg h.1, List.cons_append, List.cons.injEq, true_and]
    exact ih (by simp [hasKey, h.2])

theorem hasKey_append {α : Type} (a b : List (String × α)) (k : String) :
    hasKey (a ++ b) k = (hasKey a k || hasKey b k) := by
  simp [hasKey, List.any_append]

theorem entriesOf_append (a b : List (String × String)) (t0 : Nat) :
    entriesOf (a ++ b) t0 = entriesOf a t0 ++ entriesOf b (t0 + a.length) := by
  induction a generalizing t0 with
  | nil => simp [entriesOf]
  | cons p rest ih =>
    have h1 : (p :: rest) ++ b = p :: (rest ++ b) := rfl
    rw [h1, entriesOf, entriesOf, ih (t0 + 1), List.cons_append]
    have h2 : t0 + 1 + rest.length = t0 + (p :: rest).length := by
      simp only [List.length_cons]
      omega
    rw [h2]

theorem insertManyFrom_append (c : CCache) (a b : List (String × String))
    (t0 : Nat) :
    insertManyFrom c (a ++ b) t0 =
      insertManyFrom (insertManyFrom c a t0) b (t0 + a.length) := by
  induction a generalizing c t0 with
  | nil => simp [insertManyFrom]
  | cons p rest ih =>
    have h1 : (p :: rest) ++ b = p :: (rest ++ b) := rfl
    rw [h1, insertManyFrom, insertManyFrom, ih]
    have h2 : t0 + 1 + rest.length = t0 + (p :: rest).length := by
      simp only [List.length_cons]
      omega
    rw [h2]

theorem entriesOf_length (items : List (String × String)) (t0 : Nat) :
    (entriesOf items t0).length = items.length := by
  induction items generalizing t0 with
  | nil => rfl
  | cons p rest ih => simp [entriesOf, ih]

theorem entriesOf_keys (items : List (String × String)) (t0 : Nat) :
    (entriesOf items t0).map (fun e => e.1) = items.map (fun p => cacheKey p.1) := by
  induction items generalizing t0 with
  | nil => rfl
  | cons p rest ih => simp [entriesOf, ih]

theorem entriesOf_time_ge (items : List (String × String)) (t0 : Nat) :
    ∀ e ∈ entriesOf items t0, t0 ≤ e.2.2 := by
  induction items generalizing t0 with
  | nil => intro e he; simp [entriesOf] at he
  | cons p rest ih =>
    intro e he
    rcases List.mem_cons.mp he with rfl | hmem
    · simp
    · have := ih (t0 + 1) e hmem
      omega

theorem entriesOf_sorted (items : List (String × String)) (t0 : Nat) :
    List.Sorted (fun e f : String × String × Nat => e.2.2 ≤ f.2.2)
      (entriesOf items t0) := by
  induction items generalizing t0 with
  | nil => simp [entriesOf]
  | cons p rest ih =>
    rw [entriesOf, List.sorted_cons]
    refine ⟨fun b hb => ?_, ih (t0 + 1)⟩
    have := entriesOf_time_ge rest (t0 + 1) b hb
    simp only
    omega

/-- While the cache stays at or below capacity and all inserted keys are
fresh and pairwise distinct, `cache_classification` just appends. -/
theorem insertManyFrom_no_evict (items : List (String × String)) (c : CCache)
    (t0 : Nat)
    (hfresh : ∀ p ∈ items, hasKey c (cacheKey p.1) = false)
    (hnd : (items.map (fun p => cacheKey p.1)).Nodup)
    (hlen : c.length + items.length ≤ 500) :
    insertManyFrom c items t0 = c ++ entriesOf items t0 := by
  induction items generalizing c t0 with
  | nil => simp [insertManyFrom, entriesOf]
  | cons p rest ih =>
    have hfp : hasKey c (cacheKey p.1) = false := hfresh p (List.mem_cons_self ..)
    have happ : setFirst c (cacheKey p.1) (p.2, t0) =
        c ++ [(cacheKey p.1, (p.2, t0))] := setFirst_of_not_hasKey _ _ _ hfp
    have hlen1 : (c ++ [(cacheKey p.1, (p.2, t0))]).length = c.length + 1 := by
      simp
    have hstep : cache_classification c p.1 p.2 t0 =
        c ++ [(cacheKey p.1, (p.2, t0))] := by
      unfold cache_classification
      rw [happ]
      have : ¬ 500 < (c ++ [(cacheKey p.1, (p.2, t0))]).length := by
        rw [hlen1]
        simp only [List.length_cons] at hlen
        omega
      simp only [if_neg this]
    simp only [List.map_cons, List.nodup_cons, List.mem_map] at hnd
    have hnd' : (rest.map (fun p => cacheKey p.1)).Nodup := hnd.2
    have hfresh' : ∀ q ∈ rest, hasKey (c ++ [(cacheKey p.1, (p.2, t0))])
        (cacheKey q.1) = false := by
      intro q hq
      rw [hasKey_append]
      have h1 : hasKey c (cacheKey q.1) = false :=
        hfresh q (List.mem_cons_of_mem _ hq)
      have h2 : cacheKey p.1 ≠ cacheKey q.1 := by
        intro hcontra
        exact hnd.1 ⟨q, hq, hcontra.symm⟩
      rw [h1]
      simp only [Bool.false_or]
      simp [hasKey, h2]
    have hlen' : (c ++ [(cacheKey p.1, (p.2, t0))]).length + rest.length ≤ 500 := by
      rw [hlen1]
      simp only [List.length_cons] at hlen
      omega
    rw [insertManyFrom, hstep, ih _ (t0 + 1) hfresh' hnd' hlen']
    simp [entriesOf]

theorem foldl_delKey_prefix (pre suf : CCache)
    (hnd : ((pre ++ suf).map (fun e => e.1)).Nodup) :
    pre.foldl (fun acc e => delKey acc e.1) (pre ++ suf) = suf := by
  induction pre with
  | nil => rfl
  | cons e pre' ih =>
    have hcons : (e :: pre') ++ suf = e :: (pre' ++ suf) := rfl
    have hdel : delKey (e :: (pre' ++ suf)) e.1 = pre' ++ suf := by
      simp [delKey, List.eraseP_cons_of_pos]
    rw [hcons, List.foldl_cons, hdel]
    rw [hcons, List.map_cons, List.nodup_cons] at hnd
    exact ih hnd.2

/-- General capacity behaviour: inserting 501 pairwise-distinct keys into
the empty cache leaves the 401 newest entries; the 100 evicted entries all
carry timestamps no larger than any surviving entry's. -/
theorem insertMany_501_spec (items : List (String × String))
    (hlen : items.length = 501)
    (hnd : (items.map (fun p => cacheKey p.1)).Nodup) :
    insertManyFrom [] items 0 = (entriesOf items 0).drop 100 ∧
    (insertManyFrom [] items 0).length = 401 ∧
    ∀ e ∈ (entriesOf items 0).take 100, ∀ s ∈ insertManyFrom [] items 0,
      e.2.2 ≤ s.2.2 := by
  -- split the inserts into the first 500 and the final overflowing one
  obtain ⟨p, hp⟩ : ∃ p, items.drop 500 = [p] := by
    have h1 : (items.drop 500).length = 1 := by
      rw [List.length_drop, hlen]
    exact List.length_eq_one.mp h1
  have hsplit : items = items.take 500 ++ [p] := by
    conv_lhs => rw [← List.take_append_drop 500 items]
    rw [hp]
  have htk : (items.take 500).length = 500 := by
    rw [List.length_take, hlen]
    omega
  have hndfront : ((items.take 500).map (fun q => cacheKey q.1)).Nodup := by
    have hsub : List.Sublist (items.take 500) items := List.take_sublist ..
    exact (hsub.map _).nodup hnd
  have hfront : insertManyFrom [] (items.take 500) 0 =
      entriesOf (items.take 500) 0 := by
    have := insertManyFrom_no_evict (items.take 500) [] 0
      (fun q _ => rfl) hndfront (by rw [htk]; simp)
    simpa using this
  -- keys of the full entry list are the (distinct) input keys
  have hkeys : (entriesOf items 0).map (fun e => e.1) =
      items.map (fun q => cacheKey q.1) := entriesOf_keys ..
  have hndentries : ((entriesOf items 0).map (fun e => e.1)).Nodup := by
    rw [hkeys]; exact hnd
  -- the key of the final insert is fresh in the first 500 entries
  have hkeyfresh : hasKey (entriesOf (items.take 500) 0) (cacheKey p.1) = false := by
    rw [Bool.eq_false_iff]
    intro htrue
    have h2 : ∃ e ∈ entriesOf (items.take 500) 0, e.1 = cacheKey p.1 := by
      simpa [hasKey, List.any_eq_true] using htrue
    rcases h2 with ⟨e, hmem, hkey⟩
    have h3 : cacheKey p.1 ∈ (entriesOf (items.take 500) 0).map (fun e => e.1) :=
      List.mem_map.mpr ⟨e, hmem, hkey⟩
    rw [entriesOf_keys] at h3
    have h4 : ((items.take 500 ++ [p]).map (fun q => cacheKey q.1)).Nodup := by
      rw [← hsplit]; exact hnd
    rw [List.map_append] at h4
    rcases (List.nodup_append.mp h4) with ⟨-, -, hdisj⟩
    exact hdisj h3 (by simp)
  have hentries : entriesOf (items.take 500) 0 ++ [(cacheKey p.1, (p.2, 500))] =
      entriesOf items 0 := by
    conv_rhs => rw [hsplit]
    rw [entriesOf_append, htk]
    rfl
  have hlenentries : (entriesOf items 0).length = 501 := by
    rw [entriesOf_length, hlen]
  have hfinal : insertManyFrom [] items 0 = (entriesOf items 0).drop 100 := by
    conv_lhs => rw [hsplit]
    rw [insertManyFrom_append, htk, hfront]
    show cache_classification (entriesOf (items.take 500) 0) p.1 p.2 (0 + 500) =
      (entriesOf items 0).drop 100
    rw [Nat.zero_add]
    unfold cache_classification
    rw [setFirst_of_not_hasKey _ _ _ hkeyfresh, hentries]
    rw [if_pos (by rw [hlenentries]; omega)]
    have hsorted : sortByTimestamp (entriesOf items 0) = entriesOf items 0 :=
      (entriesOf_sorted items 0).insertionSort_eq
    rw [hsorted]
    have hfold := foldl_delKey_prefix ((entriesOf items 0).take 100)
      ((entriesOf items 0).drop 100)
      (by rw [List.take_append_drop]; exact hndentries)
    rw [List.take_append_drop] at hfold
    exact hfold
  refine ⟨hfinal, ?_, ?_⟩
  · rw [hfinal, List.length_drop, hlenentries]
  · intro e he s hs
    rw [hfinal] at hs
    have hsortVal := entriesOf_sorted items 0
    have hpair : List.Pairwise (fun e f : String × String × Nat => e.2.2 ≤ f.2.2)
        ((entriesOf items 0).take 100 ++ (entriesOf items 0).drop 100) := by
      rw [List.take_append_drop]
      exact hsortVal
    exact (List.pairwise_append.mp hpair).2.2 e he s hs

end Nandu

namespace Nandu

/-! ## Claim C1 -/

/-- 501 distinct queries (`"a"`, `"aa"`, …, 501 copies of `a`), all
classified as `book`. -/
def c1Queries : List (String × String) :=
  (List.range 501).map (fun i => (⟨List.replicate (i + 1) 'a'⟩, "book"))

theorem dropWhile_space_replicate (n : Nat) :
    (List.replicate n 'a').dropWhile pyIsSpace = List.replicate n 'a' := by
  cases n with
  | zero => rfl
  | succ m =>
    rw [List.replicate_succ, List.dropWhile_cons]
    simp [show pyIsSpace 'a' = false from rfl]

theorem cacheKey_replicate (n : Nat) :
    cacheKey ⟨List.replicate n 'a'⟩ = ⟨List.replicate n 'a'⟩ := by
  show pyStrip (pyLower ⟨List.replicate n 'a'⟩) = ⟨List.replicate n 'a'⟩
  have h1 : pyLower ⟨List.replicate n 'a'⟩ = ⟨List.replicate n 'a'⟩ := by
    show (⟨(List.replicate n 'a').map Char.toLower⟩ : String) = ⟨List.replicate n 'a'⟩
    rw [List.map_replicate, show Char.toLower 'a' = 'a' from by decide]
  rw [h1]
  show (⟨pyStripList (List.replicate n 'a')⟩ : String) = ⟨List.replicate n 'a'⟩
  unfold pyStripList
  rw [dropWhile_space_replicate, List.reverse_replicate, dropWhile_space_replicate,
    List.reverse_replicate]

theorem c1Queries_length : c1Queries.length = 501 := by
  simp [c1Queries]

theorem c1Queries_nodup : (c1Queries.map (fun p => cacheKey p.1)).Nodup := by
  unfold c1Queries
  rw [List.map_map]
  apply List.Nodup.map
  · intro i j hij
    simp only [Function.comp] at hij
    rw [cacheKey_replicate, cacheKey_replicate] at hij
    have hlen : (List.replicate (i + 1) 'a').length =
        (List.replicate (j + 1) 'a').length := congrArg (fun s : String => s.data.length) hij
    simpa using hlen
  · exact List.nodup_range 501

/-- **C1 (amended).**  Inserting 501 queries with pairwise-distinct
normalized keys into the empty classification cache leaves exactly **401**
entries (eviction fires only when the size exceeds 500, removing the 100
oldest of the 501), the survivors are exactly the 401 newest entries, and
every evicted entry's timestamp is at most every survivor's timestamp.
(The claim's figure of 400 entries is wrong; see `C1_counterexample`.) -/
theorem C1_cache_eviction_amended (items : List (String × String))
    (hlen : items.length = 501)
    (hnd : (items.map (fun p => cacheKey p.1)).Nodup) :
    insertManyFrom [] items 0 = (entriesOf items 0).drop 100 ∧
    (insertManyFrom [] items 0).length = 401 ∧
    ∀ e ∈ (entriesOf items 0).take 100, ∀ s ∈ insertManyFrom [] items 0,
      e.2.2 ≤ s.2.2 :=
  insertMany_501_spec items hlen hnd

/-- Witness for C1: the 501 concrete queries of `c1Queries` leave a cache
of 401 entries. -/
theorem C1_witness :
    insertManyFrom [] c1Queries 0 = (entriesOf c1Queries 0).drop 100 ∧
    (insertManyFrom [] c1Queries 0).length = 401 :=
  ⟨(C1_cache_eviction_amended c1Queries c1Queries_length c1Queries_nodup).1,
   (C1_cache_eviction_amended c1Queries c1Queries_length c1Queries_nodup).2.1⟩

/-- **C1 counterexample.**  The claim states that inserting 501 distinct
queries leaves exactly 400 entries; on the concrete 501 distinct queries
`c1Queries` the cache is left with 401 entries, not 400. -/
theorem C1_counterexample : ¬ (insertManyFrom [] c1Queries 0).length = 400 := by
  have h := insertMany_501_spec c1Queries c1Queries_length c1Queries_nodup
  rw [h.2.1]
  omega

end Nandu

namespace Nandu

/-! ## Audit logging and the top-level entry point
(`audit_log_query`, lines 226–258; `get_nandu_response`, lines 1827–2099)

`get_nandu_response` is wrapped by `@rate_limit(max_requests=20, window=60)`.
A denied request returns the rate-limit error from the decorator and never
enters the function body.  Inside the body: a falsy (empty) query returns
immediately with no audit entry; an over-long query and an invalid query
each write one audit entry and return; every other path runs inside
`try/finally`, whose `finally` block writes exactly one audit entry.  The
inner `try` block is abstracted as a `TryOutcome` oracle: `ok r` for every
path that returns normally (including the inner exception handlers that
return an apology without touching the `success` flag), `err r` for the
handlers that set `success = False` before returning (the book-path handler
and the critical handler).  On the `ok` paths the local `response` variable
is never assigned, so the `finally` block logs `"no_response"` with
`success = True`. -/

/-- One line of the JSONL audit log. -/
structure AuditRecord where
  query : String
  responseLength : Nat
  clientIp : String
  processingTime : Int
  success : Bool
  deriving DecidableEq, Repr

/-- `audit_log_query(query, response, client_ip, processing_time, success)`.
The record's `processing_time_ms` float is modelled by the raw elapsed
time. -/
def audit_log_query (q resp clientIp : String) (processingTime : Int)
    (success : Bool) : AuditRecord :=
  { query := ⟨q.data.take 100⟩
    responseLength := resp.length
    clientIp := if clientIp ≠ "default" then ⟨clientIp.data.take 10⟩ ++ "***" else "default"
    processingTime := processingTime
    success := success }

/-- `"Please enter a query."` -/
def emptyQueryMsg : String := "Please enter a query."

/-- The over-length rejection message. -/
def tooLongMsg : String :=
  "⚠️ **Query too long.** Please keep your question under 300 characters."

/-- The rate-limit error message (window already interpolated at 60s, as in
the decorator applied to `get_nandu_response`). -/
def rateLimitMsg : String :=
  "⚠️ **Too many requests.** Please wait 60 seconds and try again."

/-- Result of the body's outer `try` block for an admitted, validated
query. -/
inductive TryOutcome where
  | ok (response : String)
  | err (response : String)
  deriving DecidableEq, Repr

/-- `get_nandu_response(q, search_mode, client_ip)` under the
`@rate_limit(20, 60)` decorator, returning
`(response, limiter state, audit records written)`.  `now` is the
admission time, `elapsed` the measured `time.time() - start_time`. -/
def get_nandu_response (rl : RLState) (outcome : TryOutcome) (q clientIp : String)
    (now elapsed : Int) : String × RLState × List AuditRecord :=
  if (rate_limit_step rl clientIp now 20 60).1 = false then
    (rateLimitMsg, (rate_limit_step rl clientIp now 20 60).2, [])
  else if q = "" then
    (emptyQueryMsg, (rate_limit_step rl clientIp now 20 60).2, [])
  else if 300 < q.length then
    (tooLongMsg, (rate_limit_step rl clientIp now 20 60).2,
      [audit_log_query q tooLongMsg clientIp elapsed false])
  else if (is_valid_query (pyStrip q)).1 = false then
    ((is_valid_query (pyStrip q)).2, (rate_limit_step rl clientIp now 20 60).2,
      [audit_log_query (pyStrip q) (is_valid_query (pyStrip q)).2 clientIp elapsed false])
  else
    match outcome with
    | .ok resp =>
      (resp, (rate_limit_step rl clientIp now 20 60).2,
        [audit_log_query (pyStrip q) "no_response" clientIp elapsed true])
    | .err resp =>
      (resp, (rate_limit_step rl clientIp now 20 60).2,
        [audit_log_query (pyStrip q) resp clientIp elapsed false])

/-! ## Claim C2 -/

/-- A concrete saturated limiter state: client `"c"` already holds 20
in-window timestamps. -/
def fullWindow : RLState := [("c", (List.range 20).map (fun i => (i : Int)))]

/-- **C2 counterexample.**  The claim says *every* call, including a
rate-limit denial, appends exactly one audit record.  A concrete denied
call (client `"c"` already has 20 in-window timestamps) returns the
rate-limit error and appends **no** audit record. -/
theorem C2_counterexample :
    (get_nandu_response fullWindow (.ok "answer") "valid query" "c" 20 1).1 =
      rateLimitMsg ∧
    (get_nandu_response fullWindow (.ok "answer") "valid query" "c" 20 1).2.2 = [] := by
  constructor <;> rfl

/-- **C2 (amended).**  Every call that the rate limiter admits and whose
query is a non-empty string appends exactly one audit record, whatever the
outcome (over-length rejection, validation rejection, normal answer, or
error), and that record carries the elapsed processing time.  (Rate-limit
denials and empty queries append no record; see `C2_counterexample`.) -/
theorem C2_audit_exactly_once_amended (rl : RLState) (outcome : TryOutcome)
    (q clientIp : String) (now elapsed : Int)
    (hadm : (rate_limit_step rl clientIp now 20 60).1 = true)
    (hq : q ≠ "") :
    (get_nandu_response rl outcome q clientIp now elapsed).2.2.length = 1 ∧
    ∀ r ∈ (get_nandu_response rl outcome q clientIp now elapsed).2.2,
      r.processingTime = elapsed := by
  unfold get_nandu_response
  rw [hadm, if_neg (by decide : ¬(true = false)), if_neg hq]
  by_cases hlong : 300 < q.length
  · rw [if_pos hlong]
    exact ⟨rfl, by intro r hr; simp at hr; subst hr; rfl⟩
  · rw [if_neg hlong]
    by_cases hvalid : (is_valid_query (pyStrip q)).1 = false
    · rw [if_pos hvalid]
      exact ⟨rfl, by intro r hr; simp at hr; subst hr; rfl⟩
    · rw [if_neg hvalid]
      cases outcome with
      | ok resp => exact ⟨rfl, by intro r hr; simp at hr; subst hr; rfl⟩
      | err resp => exact ⟨rfl, by intro r hr; simp at hr; subst hr; rfl⟩

/-- Witness for C2: an admitted call with query `"hello"` writes exactly
one audit record carrying the elapsed time 5. -/
theorem C2_witness :
    (get_nandu_response [] (.ok "answer") "hello" "c" 0 5).2.2.length = 1 ∧
    ∀ r ∈ (get_nandu_response [] (.ok "answer") "hello" "c" 0 5).2.2,
      r.processingTime = 5 :=
  C2_audit_exactly_once_amended [] (.ok "answer") "hello" "c" 0 5
    (by decide) (by decide)

/-! ## Claim C10 -/

/-- **C10.**  Every call admitted by the rate limiter appends exactly one
timestamp (`now`) to the client's pruned window — before any validation,
for *every* query `q` and every outcome, so over-length or gibberish
queries still consume one slot of the 20-per-60-seconds budget. -/
theorem C10_admitted_call_consumes_slot (rl : RLState) (outcome : TryOutcome)
    (q clientIp : String) (now elapsed : Int)
    (hadm : (rate_limit_step rl clientIp now 20 60).1 = true) :
    getD (get_nandu_response rl outcome q clientIp now elapsed).2.1 clientIp [] =
      (getD rl clientIp []).filter (fun ts => now - ts < 60) ++ [now] := by
  have hstate : (get_nandu_response rl outcome q clientIp now elapsed).2.1 =
      (rate_limit_step rl clientIp now 20 60).2 := by
    unfold get_nandu_response
    rw [hadm, if_neg (by decide : ¬(true = false))]
    by_cases hq : q = ""
    · rw [if_pos hq]
    · rw [if_neg hq]
      by_cases hlong : 300 < q.length
      · rw [if_pos hlong]
      · rw [if_neg hlong]
        by_cases hvalid : (is_valid_query (pyStrip q)).1 = false
        · rw [if_pos hvalid]
        · rw [if_neg hvalid]
          cases outcome <;> rfl
  rw [hstate]
  have hstep : rate_limit_step rl clientIp now 20 60 =
      (true, setFirst (setFirst rl clientIp
          ((getD rl clientIp []).filter (fun ts => now - ts < 60))) clientIp
        ((getD rl clientIp []).filter (fun ts => now - ts < 60) ++ [now])) := by
    unfold rate_limit_step
    by_cases hfull : 20 ≤ ((getD rl clientIp []).filter (fun ts => now - ts < 60)).length
    · exfalso
      unfold rate_limit_step at hadm
      simp only [if_pos hfull] at hadm
      exact absurd hadm (by decide)
    · simp only [if_neg hfull]
  rw [hstep]
  exact getD_setFirst ..

/-- Witness for C10: a gibberish query (`"bcdfgh"`, rejected by
validation) still consumes a slot: client `"c"`'s window gains the
timestamp 0. -/
theorem C10_witness :
    getD (get_nandu_response [] (.ok "answer") "bcdfgh" "c" 0 5).2.1 "c" [] = [0] :=
  C10_admitted_call_consumes_slot [] (.ok "answer") "bcdfgh" "c" 0 5 (by decide)

end Nandu

namespace Nandu

/-! ## Merge engine (`merge_duplicates`, lines 1002–1133)

Input records are the dicts produced by the retrievers, with the
`Title`/`title`-style field fallbacks already resolved to plain strings.
A list element that is not a dict raises inside the per-item `try` and is
skipped by the `except … continue` handler; such items are modelled by
`RecItem.bad`. -/

/-- The resolved fields of one retrieved record
(`Title/title`, `Author/author`, `ISBN/isbn`, `Barcode/barcode`,
`Call No/itemcallnumber`, `Publisher/publishercode`,
`Year/copyrightdate`). -/
structure BookItem where
  title : String
  author : String
  isbn : String
  barcode : String
  callno : String
  publisher : String
  year : String
  deriving DecidableEq, Repr

/-- A list element of `merge_duplicates(results)`: a well-formed record
dict, or a malformed element whose field access raises (skipped). -/
inductive RecItem where
  | good (r : BookItem)
  | bad
  deriving DecidableEq, Repr

/-- `string.punctuation` (ASCII 33–47, 58–64, 91–96, 123–126). -/
def pyPunct : List Char :=
  (List.range' 33 15 ++ List.range' 58 7 ++ List.range' 91 6 ++
    List.range' 123 4).map Char.ofNat

/-- The apostrophe character. -/
def apostropheChar : Char := Char.ofNat 39

/-- `string.punctuation.replace("\x27", "")`. -/
def pyPunctNoApostrophe : List Char :=
  pyPunct.filter (fun c => c ≠ apostropheChar)

/-- `s.translate(str.maketrans(\x7b\x7d, deletechars))`: delete every
character of `bad`. -/
def removeChars (bad : List Char) (s : String) : String :=
  ⟨s.data.filter (fun c => !bad.contains c)⟩

/-- Python `s.split(sep)` for a one-character separator (keeps empty
chunks; the result is never empty). -/
def pySplitOnChar (s : String) (sep : Char) : List String :=
  (chunksBy (fun c => c = sep) s.data).map (fun w => ⟨w⟩)

/-- `" ".join(ws)` on the underlying lists. -/
def joinSpaceList : List (List Char) → List Char
  | [] => []
  | [w] => w
  | w :: x :: rest => w ++ ' ' :: joinSpaceList (x :: rest)

/-- `" ".join(s.split())` composed with the preceding steps of
`normalize_title`: strip, lowercase, remove punctuation, collapse
whitespace. -/
def normalize_title (s : String) : String :=
  let s1 := pyLower (pyStrip s)
  let s2 := removeChars pyPunct s1
  ⟨joinSpaceList ((pySplitWs s2).map (fun w => w.data))⟩

/-- First character lowered, as a string (`x[0].lower() if x else ""`). -/
def firstInitial (s : String) : String :=
  match s.data with
  | [] => ""
  | c :: _ => ⟨[Char.toLower c]⟩

/-- `canonical_author_key(author_raw)`: `lastname|firstinitial`, primary
author only, handling `"Last, First"` and `"First … Last"` forms. -/
def canonical_author_key (author_raw : String) : String :=
  let a := pyStrip author_raw
  if a = "" then ""
  else
    let primary := pyStrip ((pySplitOnChar ((pySplitOnChar a '|').headD "") ';').headD "")
    let p := removeChars pyPunctNoApostrophe primary
    let parts := pySplitWs p
    if parts = [] then ""
    else if pyContains primary "," then
      pyLower (pyStrip ((pySplitOnChar primary ',').headD "")) ++ "|" ++
        firstInitial (pyStrip (((pySplitOnChar primary ',').drop 1).headD ""))
    else
      pyLower (parts.getLastD "") ++ "|" ++ firstInitial (parts.headD "")

/-- One merged `(title, author)` group. -/
structure MergedGroup where
  Title : String
  Author : String
  ISBN : String
  Publisher : String
  Year : String
  copies : Nat
  accessions : List String
  callNumbers : List String
  editions : List (String × String)
  deriving DecidableEq, Repr

/-- Generic ordered association list read (`d.get(k, default)`). -/
def aget {κ α : Type} [DecidableEq κ] (l : List (κ × α)) (k : κ) (d : α) : α :=
  match l with
  | [] => d
  | e :: r => if e.1 = k then e.2 else aget r k d

/-- Generic key-membership test. -/
def ahas {κ α : Type} [DecidableEq κ] (l : List (κ × α)) (k : κ) : Bool :=
  l.any (fun e => e.1 = k)

/-- Modify the (unique) entry at key `k` in place. -/
def amod {κ α : Type} [DecidableEq κ] (l : List (κ × α)) (k : κ) (f : α → α) :
    List (κ × α) :=
  match l with
  | [] => []
  | e :: r => if e.1 = k then (e.1, f e.2) :: r else e :: amod r k f

/-- Generic ordered association list write (`d[k] = v`). -/
def aset {κ α : Type} [DecidableEq κ] (l : List (κ × α)) (k : κ) (v : α) :
    List (κ × α) :=
  match l with
  | [] => [(k, v)]
  | e :: r => if e.1 = k then (k, v) :: r else e :: aset r k v

/-- Python `set.add` on an order-preserving duplicate-free list. -/
def setAdd (s : List (String × String)) (x : String × String) :
    List (String × String) :=
  if s.contains x then s else s ++ [x]

/-- The fresh group dict (`copies` starts at 0 and is incremented by the
common path below). -/
def newGroup (title author isbn publisher year : String) : MergedGroup :=
  { Title := title, Author := author, ISBN := isbn, Publisher := publisher,
    Year := year, copies := 0, accessions := [], callNumbers := [],
    editions := [] }

/-- The per-item updates applied to the (existing or fresh) group:
`copies += 1`, conditional accession/call-number appends, and ISBN
adoption when the group's ISBN is empty. -/
def bumpGroup (isbn accession callno : String) (g : MergedGroup) : MergedGroup :=
  { g with
    copies := g.copies + 1
    accessions :=
      if accession ≠ "" ∧ ¬ g.accessions.contains accession then
        g.accessions ++ [accession]
      else g.accessions
    callNumbers :=
      if callno ≠ "" ∧ ¬ g.callNumbers.contains callno then
        g.callNumbers ++ [callno]
      else g.callNumbers
    ISBN := if g.ISBN = "" ∧ isbn ≠ "" then isbn else g.ISBN }

/-- Grouping state: the `groups` dict and the `editions_map`
`defaultdict(set)`. -/
abbrev MergeState :=
  List ((String × String) × MergedGroup) ×
    List ((String × String) × List (String × String))

/-- The grouping key of a record (normalized title, canonical author
key). -/
def groupKeyOf (r : BookItem) : String × String :=
  (normalize_title (pyStrip r.title), canonical_author_key (pyStrip r.author))

/-- The body of the `for item in results` loop. -/
def processItem (st : MergeState) (it : RecItem) : MergeState :=
  match it with
  | .bad => st
  | .good r =>
    if pyStrip r.title = "" then st
    else
      let key := groupKeyOf r
      let groups1 :=
        if ahas st.1 key then st.1
        else st.1 ++ [(key, newGroup (pyStrip r.title) (pyStrip r.author)
          (pyStrip r.isbn) r.publisher r.year)]
      let groups2 :=
        amod groups1 key
          (bumpGroup (pyStrip r.isbn) (pyStrip r.barcode) (pyStrip r.callno))
      let emap1 :=
        aset st.2 key (setAdd (aget st.2 key [])
          (pyStrip r.publisher, pyStrip r.year))
      (groups2, emap1)

/-- Code-point comparison of character lists (Python string `<`). -/
def charListLt : List Char → List Char → Bool
  | [], [] => false
  | [], _ :: _ => true
  | _ :: _, [] => false
  | a :: as, b :: bs =>
    if a.val < b.val then true
    else if b.val < a.val then false
    else charListLt as bs

/-- Python tuple-of-strings `≤` used by `sorted` on the edition pairs. -/
def editionLe (x y : String × String) : Bool :=
  if charListLt x.1.data y.1.data then true
  else if charListLt y.1.data x.1.data then false
  else !(charListLt y.2.data x.2.data)

/-- `pub if pub not in (None, \x27nan\x27, \x27NaN\x27) else ""`. -/
def nanFix (s : String) : String := if s = "nan" ∨ s = "NaN" then "" else s

/-- First-occurrence-order list of the distinct values (the iteration
order of a `Counter` built from `l`). -/
def dedupFirst (l : List String) : List String :=
  l.foldl (fun acc x => if acc.contains x then acc else acc ++ [x]) []

/-- `Counter(l).most_common(1)`: the value with the highest multiplicity,
ties broken by first occurrence. -/
def mostCommon (l : List String) : Option String :=
  (dedupFirst l).foldl
    (fun best x =>
      match best with
      | none => some x
      | some b => if l.count b < l.count x then some x else best)
    none

/-- The finalization loop body: sorted nan-fixed editions, and the most
frequent non-empty publisher/year as representative values. -/
def finalizeGroup (emap : List ((String × String) × List (String × String)))
    (key : String × String) (g : MergedGroup) : MergedGroup :=
  let eds := (List.insertionSort (fun x y => editionLe x y = true)
      (aget emap key [])).map (fun e => (nanFix e.1, nanFix e.2))
  let pubs := (eds.map Prod.fst).filter (fun s => s ≠ "")
  let yrs := (eds.map Prod.snd).filter (fun s => s ≠ "")
  { g with
    editions := eds
    Publisher := match mostCommon pubs with
      | some p => p
      | none => g.Publisher
    Year := match mostCommon yrs with
      | some y => y
      | none => g.Year }

/-- `merge_duplicates(results)`. -/
def merge_duplicates (results : List RecItem) : List MergedGroup :=
  if results = [] then []
  else
    (results.foldl processItem ([], [])).1.map
      (fun e => finalizeGroup (results.foldl processItem ([], [])).2 e.1 e.2)

end Nandu

namespace Nandu

/-! ## Merge-engine lemmas -/

theorem finalizeGroup_copies (emap : List ((String × String) × List (String × String)))
    (key : String × String) (g : MergedGroup) :
    (finalizeGroup emap key g).copies = g.copies := rfl

theorem bumpGroup_copies (isbn accession callno : String) (g : MergedGroup) :
    (bumpGroup isbn accession callno g).copies = g.copies + 1 := rfl

/-- Total copies over the grouping state. -/
def sumCopiesAssoc (gs : List ((String × String) × MergedGroup)) : Nat :=
  (gs.map (fun e => e.2.copies)).sum

/-- Total copies over the final merged groups. -/
def sumCopies (gs : List MergedGroup) : Nat :=
  (gs.map (fun g => g.copies)).sum

/-- The well-formed records with a non-empty (stripped) title. -/
def countTitled (items : List RecItem) : Nat :=
  items.countP (fun it =>
    match it with
    | .bad => false
    | .good r => pyStrip r.title ≠ "")

theorem ahas_append {κ α : Type} [DecidableEq κ] (a b : List (κ × α)) (k : κ) :
    ahas (a ++ b) k = (ahas a k || ahas b k) := by
  simp [ahas, List.any_append]

theorem sumCopiesAssoc_append (a b : List ((String × String) × MergedGroup)) :
    sumCopiesAssoc (a ++ b) = sumCopiesAssoc a + sumCopiesAssoc b := by
  simp [sumCopiesAssoc]

theorem sumCopiesAssoc_amod_bump (gs : List ((String × String) × MergedGroup))
    (k : String × String) (f : MergedGroup → MergedGroup)
    (hf : ∀ g, (f g).copies = g.copies + 1)
    (h : ahas gs k = true) :
    sumCopiesAssoc (amod gs k f) = sumCopiesAssoc gs + 1 := by
  induction gs with
  | nil => simp [ahas] at h
  | cons e r ih =>
    by_cases hk : e.1 = k
    · simp only [amod, if_pos hk, sumCopiesAssoc, List.map_cons, List.sum_cons, hf]
      omega
    · have h' : ahas r k = true := by
        simpa [ahas, hk] using h
      simp only [amod, if_neg hk, sumCopiesAssoc, List.map_cons, List.sum_cons]
      have := ih h'
      simp only [sumCopiesAssoc] at this
      omega

theorem sumCopies_processItem (st : MergeState) (it : RecItem) :
    sumCopiesAssoc (processItem st it).1 = sumCopiesAssoc st.1 + countTitled [it] := by
  cases it with
  | bad => simp [processItem, countTitled]
  | good r =>
    by_cases h : pyStrip r.title = ""
    · simp [processItem, h, countTitled]
    · have hcount : countTitled [RecItem.good r] = 1 := by
        simp [countTitled, List.countP_cons, h]
      rw [hcount]
      simp only [processItem, if_neg h]
      by_cases hhas : ahas st.1 (groupKeyOf r) = true
      · simp only [hhas, if_true]
        exact sumCopiesAssoc_amod_bump _ _ _ (fun g => rfl) hhas
      · have hhasf : ahas st.1 (groupKeyOf r) = false := by
          revert hhas; cases ahas st.1 (groupKeyOf r) <;> simp
        simp only [hhasf, Bool.false_eq_true, if_false]
        have hhas2 : ahas (st.1 ++ [(groupKeyOf r,
            newGroup (pyStrip r.title) (pyStrip r.author) (pyStrip r.isbn)
              r.publisher r.year)]) (groupKeyOf r) = true := by
          rw [ahas_append, hhasf]
          simp [ahas]
        rw [sumCopiesAssoc_amod_bump _ _ _ (fun g => rfl) hhas2,
          sumCopiesAssoc_append]
        simp [sumCopiesAssoc, newGroup]

theorem sumCopies_foldl (items : List RecItem) (st : MergeState) :
    sumCopiesAssoc (items.foldl processItem st).1 =
      sumCopiesAssoc st.1 + countTitled items := by
  induction items generalizing st with
  | nil => simp [countTitled]
  | cons it rest ih =>
    rw [List.foldl_cons, ih, sumCopies_processItem]
    have h1 : countTitled (it :: rest) = countTitled rest + countTitled [it] := by
      simp [countTitled, List.countP_cons]
    omega

/-! ## Claim C9 -/

/-- **C9.**  For every input list, the copies of the groups returned by
`merge_duplicates` sum to the number of well-formed records with a
non-empty title: each titled record contributes exactly one copy, and
malformed or title-less records contribute none without aborting the
batch. -/
theorem C9_copies_partition (items : List RecItem) :
    sumCopies (merge_duplicates items) = countTitled items := by
  unfold merge_duplicates
  by_cases h : items = []
  · subst h
    simp [countTitled, sumCopies]
  · rw [if_neg h]
    have hfin : (fun e : (String × String) × MergedGroup =>
        (finalizeGroup (items.foldl processItem ([], [])).2 e.1 e.2).copies) =
        (fun e : (String × String) × MergedGroup => e.2.copies) :=
      funext fun e => rfl
    unfold sumCopies
    rw [List.map_map]
    show ((items.foldl processItem ([], [])).1.map (fun e =>
      (finalizeGroup (items.foldl processItem ([], [])).2 e.1 e.2).copies)).sum =
      countTitled items
    rw [hfin]
    have := sumCopies_foldl items ([], [])
    simp only [sumCopiesAssoc] at this ⊢
    simpa using this

/-! ## Claim C4 -/

/-- The first titled record inserted into the empty state creates its
group (with one copy) and its editions entry. -/
theorem processItem_nil (r : BookItem) (h : pyStrip r.title ≠ "") :
    processItem ([], []) (.good r) =
      ([(groupKeyOf r, bumpGroup (pyStrip r.isbn) (pyStrip r.barcode)
          (pyStrip r.callno)
          (newGroup (pyStrip r.title) (pyStrip r.author) (pyStrip r.isbn)
            r.publisher r.year))],
       [(groupKeyOf r, [(pyStrip r.publisher, pyStrip r.year)])]) := by
  simp [processItem, h, ahas, amod, aset, aget, setAdd]

/-- **C4.**  Two well-formed records with non-empty titles merge into one
group with `copies = 2` whenever their normalized titles and canonical
author keys agree — in particular `{Foo, J. Smith}` and
`{foo, Smith, J.}` (see the witness). -/
theorem C4_same_key_records_merge (r1 r2 : BookItem)
    (h1 : pyStrip r1.title ≠ "") (h2 : pyStrip r2.title ≠ "")
    (hkey : groupKeyOf r1 = groupKeyOf r2) :
    (merge_duplicates [.good r1, .good r2]).length = 1 ∧
    ∀ g ∈ merge_duplicates [.good r1, .good r2], g.copies = 2 := by
  have hfold : ([RecItem.good r1, RecItem.good r2].foldl processItem ([], [])).1 =
      [(groupKeyOf r1,
        bumpGroup (pyStrip r2.isbn) (pyStrip r2.barcode) (pyStrip r2.callno)
          (bumpGroup (pyStrip r1.isbn) (pyStrip r1.barcode) (pyStrip r1.callno)
            (newGroup (pyStrip r1.title) (pyStrip r1.author) (pyStrip r1.isbn)
              r1.publisher r1.year)))] := by
    rw [List.foldl_cons, List.foldl_cons, List.foldl_nil, processItem_nil r1 h1]
    simp only [processItem, if_neg h2]
    rw [← hkey]
    simp [ahas, amod, aset, aget, setAdd]
  have hne : ([RecItem.good r1, RecItem.good r2] : List RecItem) ≠ [] := by simp
  constructor
  · unfold merge_duplicates
    rw [if_neg hne, List.length_map, hfold]
    rfl
  · intro g hg
    unfold merge_duplicates at hg
    rw [if_neg hne, hfold] at hg
    simp only [List.map_cons, List.map_nil, List.mem_singleton] at hg
    subst hg
    rfl

/-- The two concrete spec records: `{Foo, J. Smith}` and
`{foo, Smith, J.}` (all other fields empty). -/
def fooSmith1 : BookItem := ⟨"Foo", "J. Smith", "", "", "", "", ""⟩

/-- Second spec record of the C4 scenario. -/
def fooSmith2 : BookItem := ⟨"foo", "Smith, J.", "", "", "", "", ""⟩

/-- Witness for C4: the spec's concrete pair collapses to one group with
`copies = 2`. -/
theorem C4_witness :
    (merge_duplicates [.good fooSmith1, .good fooSmith2]).length = 1 ∧
    ∀ g ∈ merge_duplicates [.good fooSmith1, .good fooSmith2], g.copies = 2 :=
  C4_same_key_records_merge fooSmith1 fooSmith2 (by decide) (by decide) (by decide)

/-! ## Claim C5 -/

/-- The grouping keys of the titled, well-formed records, in input order. -/
def titledKeys (items : List RecItem) : List (String × String) :=
  items.filterMap (fun it =>
    match it with
    | .bad => none
    | .good r => if pyStrip r.title = "" then none else some (groupKeyOf r))

/-- First-occurrence deduplication of a key list. -/
def dedupKeys (l : List (String × String)) : List (String × String) :=
  l.foldl (fun acc k => if k ∈ acc then acc else acc ++ [k]) []

theorem ahas_iff_mem_keys {κ α : Type} [DecidableEq κ] (l : List (κ × α)) (k : κ) :
    ahas l k = true ↔ k ∈ l.map Prod.fst := by
  rw [ahas, List.any_eq_true]
  constructor
  · rintro ⟨e, he, hk⟩
    simp only [decide_eq_true_eq] at hk
    exact List.mem_map.mpr ⟨e, he, hk⟩
  · intro h
    rcases List.mem_map.mp h with ⟨e, he, hk⟩
    exact ⟨e, he, by simp [hk]⟩

theorem amod_keys {κ α : Type} [DecidableEq κ] (l : List (κ × α)) (k : κ)
    (f : α → α) : (amod l k f).map Prod.fst = l.map Prod.fst := by
  induction l with
  | nil => rfl
  | cons e r ih =>
    by_cases h : e.1 = k <;> simp [amod, h, ih]

theorem keys_foldl (items : List RecItem) :
    ∀ st : MergeState,
      (items.foldl processItem st).1.map Prod.fst =
        (titledKeys items).foldl
          (fun acc k => if k ∈ acc then acc else acc ++ [k])
          (st.1.map Prod.fst) := by
  induction items with
  | nil => intro st; rfl
  | cons it rest ih =>
    intro st
    rw [List.foldl_cons, ih]
    cases it with
    | bad => rfl
    | good r =>
      by_cases htitle : pyStrip r.title = ""
      · have h1 : processItem st (.good r) = st := by
          simp [processItem, htitle]
        have h2 : titledKeys (RecItem.good r :: rest) = titledKeys rest := by
          simp [titledKeys, List.filterMap_cons, htitle]
        rw [h1, h2]
      · have h2 : titledKeys (RecItem.good r :: rest) =
            groupKeyOf r :: titledKeys rest := by
          simp [titledKeys, List.filterMap_cons, htitle]
        rw [h2, List.foldl_cons]
        congr 1
        by_cases hmem : groupKeyOf r ∈ st.1.map Prod.fst
        · have hhas : ahas st.1 (groupKeyOf r) = true :=
            (ahas_iff_mem_keys ..).mpr hmem

          simp only [processItem, if_neg htitle, hhas, if_true, amod_keys,
            if_pos hmem]
        · have hhas : ahas st.1 (groupKeyOf r) = false := by
            rw [Bool.eq_false_iff]
            intro htrue
            exact hmem ((ahas_iff_mem_keys ..).mp htrue)
          simp only [processItem, if_neg htitle, hhas, Bool.false_eq_true,
            if_false, amod_keys, if_neg hmem, List.map_append, List.map_cons,
            List.map_nil]

/-- The groups of `merge_duplicates` are exactly one per distinct
`(title-key, author-key)` of the titled input records. -/
theorem merge_group_count (items : List RecItem) :
    (merge_duplicates items).length = (dedupKeys (titledKeys items)).length := by
  unfold merge_duplicates
  by_cases h : items = []
  · subst h
    simp [titledKeys, dedupKeys]
  · rw [if_neg h, List.length_map]
    have hlen : (items.foldl processItem ([], [])).1.length =
        ((items.foldl processItem ([], [])).1.map Prod.fst).length := by
      simp
    rw [hlen, keys_foldl items ([], [])]
    rfl

/-- Two titled records with different canonical author keys always land in
two distinct groups. -/
theorem merge_two_records_distinct_author_keys (r1 r2 : BookItem)
    (h1 : pyStrip r1.title ≠ "") (h2 : pyStrip r2.title ≠ "")
    (hkey : canonical_author_key (pyStrip r1.author) ≠
      canonical_author_key (pyStrip r2.author)) :
    (merge_duplicates [.good r1, .good r2]).length = 2 := by
  have hkne : groupKeyOf r1 ≠ groupKeyOf r2 := by
    intro hcontra
    exact hkey (congrArg Prod.snd hcontra)
  have hfold : ([RecItem.good r1, RecItem.good r2].foldl processItem ([], [])).1 =
      [(groupKeyOf r1,
        bumpGroup (pyStrip r1.isbn) (pyStrip r1.barcode) (pyStrip r1.callno)
          (newGroup (pyStrip r1.title) (pyStrip r1.author) (pyStrip r1.isbn)
            r1.publisher r1.year)),
       (groupKeyOf r2,
        bumpGroup (pyStrip r2.isbn) (pyStrip r2.barcode) (pyStrip r2.callno)
          (newGroup (pyStrip r2.title) (pyStrip r2.author) (pyStrip r2.isbn)
            r2.publisher r2.year))] := by
    rw [List.foldl_cons, List.foldl_cons, List.foldl_nil, processItem_nil r1 h1]
    simp only [processItem, if_neg h2]
    simp [ahas, amod, aset, aget, setAdd, hkne, Ne.symm hkne]
  have hne : ([RecItem.good r1, RecItem.good r2] : List RecItem) ≠ [] := by simp
  unfold merge_duplicates
  rw [if_neg hne, List.length_map, hfold]
  rfl

/-- **C5 (amended).**  `merge_duplicates` groups records exactly by their
`(title-key, canonical-author-key)` — the number of groups always equals
the number of distinct keys, so records with different canonical author
keys are never placed in the same group — and two titled records with
different canonical author keys always yield two distinct groups,
in particular `{Foo, J. Smith}` vs `{Foo, K. Jones}`.  A record with an
empty author is therefore never merged with a record whose author has a
*non-empty canonical key*; but an author consisting only of punctuation
or separators canonicalizes to the empty key and does merge with an empty
author (see `C5_counterexample`). -/
theorem C5_no_cross_key_merge_amended :
    (∀ items : List RecItem,
      (merge_duplicates items).length = (dedupKeys (titledKeys items)).length) ∧
    (∀ r1 r2 : BookItem, pyStrip r1.title ≠ "" → pyStrip r2.title ≠ "" →
      canonical_author_key (pyStrip r1.author) ≠
        canonical_author_key (pyStrip r2.author) →
      (merge_duplicates [.good r1, .good r2]).length = 2) :=
  ⟨merge_group_count, merge_two_records_distinct_author_keys⟩

/-- Witness for C5: `{Foo, J. Smith}` and `{Foo, K. Jones}` yield two
distinct groups. -/
theorem C5_witness :
    (merge_duplicates [.good ⟨"Foo", "J. Smith", "", "", "", "", ""⟩,
      .good ⟨"Foo", "K. Jones", "", "", "", "", ""⟩]).length = 2 :=
  C5_no_cross_key_merge_amended.2 _ _ (by decide) (by decide) (by decide)

/-- **C5 counterexample.**  The claim also states that a record with an
empty author is *never* merged with a record with a non-empty author.
Concretely, `{Foo, ""}` and `{Foo, "..."}` — the second author is a
non-empty string — are merged into a single group, because `"..."`
canonicalizes to the empty author key. -/
theorem C5_counterexample :
    (merge_duplicates [.good ⟨"Foo", "", "", "", "", "", ""⟩,
      .good ⟨"Foo", "...", "", "", "", "", ""⟩]).length = 1 ∧
    ("..." : String) ≠ "" := by
  constructor
  · decide
  · decide

end Nandu

namespace Nandu

/-! ## Spelling correction (`auto_correct_spelling`, lines 446–528)

The external corrector (`TextBlob(query).correct()`) and the lazily built
author-token lexicon (read from the catalogue database) are parameters of
the model; the claim holds for every corrector and every lexicon. -/

/-- The fixed preserve-list of domain terms and acronyms. -/
def preserve_words : List String :=
  ["timings", "ebooks", "eresources", "opac", "scopus",
   "webopac", "vpn", "wifi", "technobooth", "grammarly",
   "turnitin", "mendeley", "zotero", "jstor",
   "phd", "pg", "ug", "btech", "mtech", "msc", "bsc",
   "iit", "ropar", "isbn", "doi", "issn"]

/-- `re.findall(r"[A-Za-z\x27]+", s)`: maximal runs of letters and
apostrophes. -/
def findWordTokens (s : String) : List String :=
  (pyWordsBy (fun c => !(c.isAlpha || c = apostropheChar)) s.data).map
    (fun w => ⟨w⟩)

/-- `auto_correct_spelling(query)` with the TextBlob availability flag,
the external corrector and the author-token lexicon as parameters. -/
def auto_correct_spelling (hasTextBlob : Bool) (correctFn : String → String)
    (authorTokens : List String) (query : String) : String :=
  if hasTextBlob = false ∨ query = "" then query
  else if preserve_words.any (fun w => (pySplitWs (pyLower query)).contains w) then
    query
  else
    if pyLower (correctFn query) ≠ pyLower query then
      if ((correctFn query).length - query.length ≤ 3 ∧
            query.length - (correctFn query).length ≤ 3) ∧
          ((findWordTokens (pyLower query)).filter
            (fun t => authorTokens.contains t)).all
            (fun t => (findWordTokens (pyLower (correctFn query))).contains t) then
        correctFn query
      else query
    else query

/-! ## Claim C8 -/

/-- **C8.**  Whenever the query contains a preserve-list token as a whole
(whitespace-delimited, case-insensitive) word, `auto_correct_spelling`
returns the query unchanged, for every corrector and every author
lexicon. -/
theorem C8_preserve_words_short_circuit (hasTextBlob : Bool)
    (correctFn : String → String) (authorTokens : List String) (query : String)
    (hw : ∃ w ∈ preserve_words, w ∈ pySplitWs (pyLower query)) :
    auto_correct_spelling hasTextBlob correctFn authorTokens query = query := by
  unfold auto_correct_spelling
  by_cases h0 : hasTextBlob = false ∨ query = ""
  · rw [if_pos h0]
  · rw [if_neg h0]
    have hany : preserve_words.any
        (fun w => (pySplitWs (pyLower query)).contains w) = true := by
      rcases hw with ⟨w, hw1, hw2⟩
      apply List.any_eq_true.mpr
      refine ⟨w, hw1, ?_⟩
      exact List.elem_iff.mpr hw2
    rw [if_pos hany]

/-- Witness for C8: `"opac timings"` is returned unchanged even under a
corrector that would rewrite it. -/
theorem C8_witness :
    auto_correct_spelling true (fun _ => "pack timings") [] "opac timings" =
      "opac timings" :=
  C8_preserve_words_short_circuit true (fun _ => "pack timings") [] "opac timings"
    (by decide)

end Nandu

namespace Nandu

/-! ## Catalogue search (`search_catalogue`, lines 1393–1463)

The SQLite query is modelled row by row: the `WHERE` clause keeps every
row whose lowered title/author/ISBN/call-number contains the lowered query
variation (`LIKE` patterns are treated as literal substrings — no
wildcard character in the variation), the `CASE` expression assigns the
relevance score in the source's evaluation order, `ORDER BY … DESC` is a
sort by descending score, and `LIMIT` truncates to `limit * 2` rows.  The
surrounding Python loop deduplicates across query variations by a
`title-author-isbn` composite id and breaks once `limit` results
accumulate; the final list is re-sorted by descending score and truncated
to `limit`.  The query-variation list produced by `expand_book_query` is a
parameter (the claim is independent of which variations are generated; the
concrete theorems use variation lists that `expand_book_query` actually
produces). -/

/-- One row of the `catalogue` table (the fields the query touches). -/
structure CatRow where
  title : String
  author : String
  isbn : String
  callno : String
  deriving DecidableEq, Repr

/-- The `CASE` expression, in the source's evaluation order: exact title,
fuzzy title, fuzzy author, exact ISBN, fuzzy call number, other. -/
def relevance_score (v : String) (r : CatRow) : Nat :=
  if pyLower r.title = pyLower v then 100
  else if pyContains (pyLower r.title) (pyLower v) then 80
  else if pyContains (pyLower r.author) (pyLower v) then 70
  else if pyLower r.isbn = pyLower v then 90
  else if pyContains (pyLower r.callno) (pyLower v) then 50
  else 30

/-- The relevance score as the *spec* sentence orders the match kinds
(exact title 100, exact ISBN 90, fuzzy title 80, fuzzy author 70, fuzzy
call number 50, other 30).  Used only to compare the spec against the
source (`C3_counterexample`). -/
def spec_relevance_score (v : String) (r : CatRow) : Nat :=
  if pyLower r.title = pyLower v then 100
  else if pyLower r.isbn = pyLower v then 90
  else if pyContains (pyLower r.title) (pyLower v) then 80
  else if pyContains (pyLower r.author) (pyLower v) then 70
  else if pyContains (pyLower r.callno) (pyLower v) then 50
  else 30

/-- The `WHERE` clause: any of the four fields contains the variation. -/
def whereMatch (v : String) (r : CatRow) : Bool :=
  pyContains (pyLower r.title) (pyLower v) ||
  pyContains (pyLower r.author) (pyLower v) ||
  pyContains (pyLower r.isbn) (pyLower v) ||
  pyContains (pyLower r.callno) (pyLower v)

/-- Descending-score ordering of scored rows. -/
def scoreGe (x y : CatRow × Nat) : Prop := y.2 ≤ x.2

instance : DecidableRel scoreGe := fun x y => Nat.decLe y.2 x.2

instance : IsTotal (CatRow × Nat) scoreGe := ⟨fun a b => Nat.le_total b.2 a.2⟩

instance : IsTrans (CatRow × Nat) scoreGe :=
  ⟨fun _ _ _ hab hbc => Nat.le_trans hbc hab⟩

/-- One execution of the SQL statement for variation `v`:
filter by `WHERE`, score by `CASE`, sort descending, `LIMIT lim`. -/
def sqlQuery (db : List CatRow) (v : String) (lim : Nat) : List (CatRow × Nat) :=
  (List.insertionSort scoreGe
    ((db.filter (whereMatch v)).map (fun r => (r, relevance_score v r)))).take lim

/-- `f"\x7btitle\x7d-\x7bauthor\x7d-\x7bisbn\x7d"`, the cross-variation
deduplication id. -/
def resultId (r : CatRow) : String := r.title ++ "-" ++ r.author ++ "-" ++ r.isbn

/-- The inner `for row in cursor.fetchall()` loop: skip already-seen ids,
append new ones, break (flag `true`) once `lim` results accumulate. -/
def addRows (lim : Nat) :
    List (CatRow × Nat) → List (CatRow × Nat) → List String →
      List (CatRow × Nat) × List String × Bool
  | [], acc, seen => (acc, seen, false)
  | q :: rest, acc, seen =>
    if seen.contains (resultId q.1) then
      if lim ≤ acc.length then (acc, seen, true)
      else addRows lim rest acc seen
    else
      if lim ≤ (acc ++ [q]).length then (acc ++ [q], seen ++ [resultId q.1], true)
      else addRows lim rest (acc ++ [q]) (seen ++ [resultId q.1])

/-- The outer `for q_var in query_variations` loop with its two `break`
checks. -/
def searchLoop (db : List CatRow) (lim : Nat) :
    List String → List (CatRow × Nat) → List String → List (CatRow × Nat)
  | [], acc, _ => acc
  | v :: vs, acc, seen =>
    if (addRows lim (sqlQuery db v (lim * 2)) acc seen).2.2 then
      (addRows lim (sqlQuery db v (lim * 2)) acc seen).1
    else if lim ≤ (addRows lim (sqlQuery db v (lim * 2)) acc seen).1.length then
      (addRows lim (sqlQuery db v (lim * 2)) acc seen).1
    else
      searchLoop db lim vs (addRows lim (sqlQuery db v (lim * 2)) acc seen).1
        (addRows lim (sqlQuery db v (lim * 2)) acc seen).2.1

/-- `search_catalogue(query, limit)` over an explicit table and an
explicit variation list. -/
def search_catalogue (db : List CatRow) (queryVariations : List String)
    (lim : Nat) : List (CatRow × Nat) :=
  (List.insertionSort scoreGe (searchLoop db lim queryVariations [] [])).take lim

/-! ## Catalogue-search lemmas -/

theorem sqlQuery_mem (db : List CatRow) (v : String) (lim : Nat)
    (p : CatRow × Nat) (h : p ∈ sqlQuery db v lim) :
    whereMatch v p.1 = true ∧ p.2 = relevance_score v p.1 := by
  unfold sqlQuery at h
  have h1 := List.mem_of_mem_take h
  rw [List.mem_insertionSort] at h1
  rcases List.mem_map.mp h1 with ⟨r, hr, rfl⟩
  exact ⟨(List.mem_filter.mp hr).2, rfl⟩

theorem addRows_mem (lim : Nat) (rows : List (CatRow × Nat)) :
    ∀ acc seen p, p ∈ (addRows lim rows acc seen).1 → p ∈ acc ∨ p ∈ rows := by
  induction rows with
  | nil =>
    intro acc seen p h
    exact Or.inl h
  | cons q rest ih =>
    intro acc seen p h
    simp only [addRows] at h
    by_cases hdup : seen.contains (resultId q.1) = true
    · rw [if_pos hdup] at h
      by_cases hlim : lim ≤ acc.length
      · rw [if_pos hlim] at h
        exact Or.inl h
      · rw [if_neg hlim] at h
        rcases ih acc seen p h with hacc | hrest
        · exact Or.inl hacc
        · exact Or.inr (List.mem_cons_of_mem _ hrest)
    · rw [if_neg hdup] at h
      by_cases hlim : lim ≤ (acc ++ [q]).length
      · rw [if_pos hlim] at h
        rcases List.mem_append.mp h with hacc | hq
        · exact Or.inl hacc
        · exact Or.inr (by simp at hq; simp [hq])
      · rw [if_neg hlim] at h
        rcases ih _ _ p h with hacc | hrest
        · rcases List.mem_append.mp hacc with hacc2 | hq
          · exact Or.inl hacc2
          · exact Or.inr (by simp at hq; simp [hq])
        · exact Or.inr (List.mem_cons_of_mem _ hrest)

theorem searchLoop_mem (db : List CatRow) (lim : Nat) (vs : List String) :
    ∀ acc seen p, p ∈ searchLoop db lim vs acc seen →
      p ∈ acc ∨ ∃ v ∈ vs, whereMatch v p.1 = true ∧ p.2 = relevance_score v p.1 := by
  induction vs with
  | nil =>
    intro acc seen p h
    exact Or.inl h
  | cons v rest ih =>
    intro acc seen p h
    simp only [searchLoop] at h
    have hres : ∀ q, q ∈ (addRows lim (sqlQuery db v (lim * 2)) acc seen).1 →
        q ∈ acc ∨ ∃ w ∈ v :: rest, whereMatch w q.1 = true ∧
          q.2 = relevance_score w q.1 := by
      intro q hq
      rcases addRows_mem lim _ acc seen q hq with hacc | hsql
      · exact Or.inl hacc
      · have := sqlQuery_mem db v (lim * 2) q hsql
        exact Or.inr ⟨v, List.mem_cons_self .., this⟩
    by_cases hbrk : (addRows lim (sqlQuery db v (lim * 2)) acc seen).2.2 = true
    · rw [if_pos hbrk] at h
      exact hres p h
    · rw [if_neg hbrk] at h
      by_cases hlim : lim ≤ (addRows lim (sqlQuery db v (lim * 2)) acc seen).1.length
      · rw [if_pos hlim] at h
        exact hres p h
      · rw [if_neg hlim] at h
        rcases ih _ _ p h with hmid | ⟨w, hw, hmatch⟩
        · rcases hres p hmid with hacc | hv
          · exact Or.inl hacc
          · exact Or.inr hv
        · exact Or.inr ⟨w, List.mem_cons_of_mem _ hw, hmatch⟩

/-! ## Claim C3 -/

/-- **C3 (amended).**  Every record returned by `search_catalogue`
matches the `WHERE` clause for some query variation and carries the
relevance score that the SQL `CASE` assigns for that variation — in the
source's evaluation order exact title = 100, **fuzzy title = 80, fuzzy
author = 70, exact ISBN = 90**, fuzzy call number = 50, other = 30 (so a
record that is both a substring-title match and an exact-ISBN match scores
80, not 90; see `C3_counterexample`) — and the final list is sorted in
descending score order and truncated to `limit`. -/
theorem C3_search_catalogue_amended (db : List CatRow) (vars : List String)
    (lim : Nat) :
    (∀ p ∈ search_catalogue db vars lim,
      ∃ v ∈ vars, whereMatch v p.1 = true ∧ p.2 = relevance_score v p.1) ∧
    List.Sorted (fun a b : Nat => b ≤ a)
      ((search_catalogue db vars lim).map Prod.snd) ∧
    (search_catalogue db vars lim).length ≤ lim := by
  refine ⟨?_, ?_, ?_⟩
  · intro p hp
    unfold search_catalogue at hp
    have h1 := List.mem_of_mem_take hp
    rw [List.mem_insertionSort] at h1
    rcases searchLoop_mem db lim vars [] [] p h1 with habs | hgood
    · exact absurd habs (List.not_mem_nil p)
    · exact hgood
  · unfold search_catalogue
    have hsorted : List.Sorted scoreGe
        (List.insertionSort scoreGe (searchLoop db lim vars [] [])) :=
      List.sorted_insertionSort scoreGe _
    have htake : List.Sorted scoreGe
        ((List.insertionSort scoreGe (searchLoop db lim vars [] [])).take lim) :=
      List.Pairwise.sublist (List.take_sublist ..) hsorted
    exact List.pairwise_map.mpr htake
  · unfold search_catalogue
    exact List.length_take_le ..

/-- A catalogue row that is simultaneously an exact-ISBN match and a
substring-title match for the query `"12345"`. -/
def isbnRow : CatRow := ⟨"x12345", "a", "12345", "c"⟩

/-- **C3 counterexample.**  For the query `"12345"` (whose
`expand_book_query` variation set is just `["12345"]`), the single
returned record is an exact ISBN match and not an exact title match, so
the claim's match-kind table assigns it 90 — but the code returns it with
score 80, because the SQL `CASE` tests the fuzzy title condition before
the exact ISBN condition. -/
theorem C3_counterexample :
    search_catalogue [isbnRow] ["12345"] 10 = [(isbnRow, 80)] ∧
    spec_relevance_score "12345" isbnRow = 90 ∧ (80 : Nat) ≠ 90 := by
  refine ⟨by decide, by decide, by decide⟩

/-- Witness for C3: on the one-row table, the returned record's score is
the `CASE` score of its variation, the result is sorted and within the
limit. -/
theorem C3_witness :
    (∃ v ∈ ["12345"], whereMatch v isbnRow = true ∧
      (80 : Nat) = relevance_score v isbnRow) ∧
    List.Sorted (fun a b : Nat => b ≤ a)
      ((search_catalogue [isbnRow] ["12345"] 10).map Prod.snd) ∧
    (search_catalogue [isbnRow] ["12345"] 10).length ≤ 10 := by
  have h := C3_search_catalogue_amended [isbnRow] ["12345"] 10
  exact ⟨h.1 (isbnRow, 80) (by decide), h.2.1, h.2.2⟩

end Nandu
